import Mathlib

/-!
Shallow embedding of `src/spark/cycle_step_analysis.py` (battery-cycler
telemetry aggregation pipeline).  Python floats are modelled as exact
rationals (`ℚ`); the Kafka/Cassandra/Spark plumbing is modelled as pure
list transformations: a window is a `List` of raw lines, `reduceByKey`
is a fold into an association list, and the Cassandra session is a pure
store `RowKey → ℚ` receiving additive write operations.
-/

namespace CycleStep

/-- Conversion constant `DELTA_TIME = 1.0` (line 58). -/
def DELTA_TIME : ℚ := 1

/-- Conversion constant `CAP_CONVERSION = 3.6E6` (line 59). -/
def CAP_CONVERSION : ℚ := 3600000

/-- Conversion constant `ENG_CONVERSION = 3.6E6` (line 60). -/
def ENG_CONVERSION : ℚ := 3600000

/-- Conversion constant `PWR_CONVERSION = 1.0E3` (line 61). -/
def PWR_CONVERSION : ℚ := 1000

/-- One parsed telemetry reading: the typed nine fields produced by the
`paired_rdd` map (lines 71-73). -/
structure Reading where
  battery_id : String
  group : String
  cycle : Int
  step : String
  timestamp : String
  voltage : ℚ
  current : ℚ
  prev_voltage : ℚ
  step_time : ℚ
  deriving DecidableEq, Repr

/-- The composite aggregation key `(battery_id, group, cycle, step)`
(line 72). -/
abbrev AggKey := String × String × Int × String

/-- The per-key accumulator value
`(capacity, energy, power, counts)` (lines 79-84). -/
abbrev Metric := ℚ × ℚ × ℚ × ℕ

/-- The reorganized summary tuple
`(step, group, cycle, battery_id, capacity, energy, power, counts)`
(lines 100-108). -/
abbrev Summary := String × String × Int × String × ℚ × ℚ × ℚ × ℕ

/-- The tuple handed to `send_partition`:
`(group, cycle, battery_id, metric_value)` (lines 201-204). -/
abbrev Entry := String × Int × String × ℚ

/-- The Cassandra row key `(group, cycle, id)` addressed by the CQL
`WHERE` clause (lines 132-134). -/
abbrev RowKey := String × Int × String

/-- Digit string to natural number, most significant digit first. -/
def digitsToNat (cs : List Char) : ℕ :=
  cs.foldl (fun n c => 10 * n + (c.toNat - ('0').toNat)) 0

/-- Python `int(...)` applied to an already-stripped string: an optional
sign followed by a nonempty digit run (models line 72's `int(x[2])`). -/
def pyInt (s : String) : Option Int :=
  match s.toList with
  | [] => none
  | '-' :: rest =>
      if rest ≠ [] ∧ rest.all Char.isDigit then some (-(digitsToNat rest : Int))
      else none
  | '+' :: rest =>
      if rest ≠ [] ∧ rest.all Char.isDigit then some (digitsToNat rest : Int)
      else none
  | cs =>
      if cs.all Char.isDigit then some (digitsToNat cs : Int) else none

/-- Mantissa of a Python float literal: digits, optionally one dot with
further digits; at least one digit in total.  Returned as the pair
`(m, scale)` denoting the rational `m / 10 ^ scale`. -/
def parseMantissa (cs : List Char) : Option (ℕ × ℕ) :=
  match cs.span Char.isDigit with
  | (intPart, rest) =>
    match rest with
    | [] => if intPart = [] then none else some (digitsToNat intPart, 0)
    | '.' :: frac =>
        if frac.all Char.isDigit ∧ (intPart ≠ [] ∨ frac ≠ []) then
          some (digitsToNat intPart * 10 ^ frac.length + digitsToNat frac,
            frac.length)
        else none
    | _ => none

/-- Exponent of a Python float literal: optional sign, nonempty digits. -/
def parseExponent (cs : List Char) : Option Int :=
  match cs with
  | [] => none
  | '-' :: rest =>
      if rest ≠ [] ∧ rest.all Char.isDigit then some (-(digitsToNat rest : Int))
      else none
  | '+' :: rest =>
      if rest ≠ [] ∧ rest.all Char.isDigit then some (digitsToNat rest : Int)
      else none
  | rest =>
      if rest ≠ [] ∧ rest.all Char.isDigit then some (digitsToNat rest : Int)
      else none

/-- Python `float(...)` applied to an already-stripped string: optional
sign, mantissa, optional `e`/`E` exponent; the value is returned as an
exact rational (models lines 73's `float(x[i])`). -/
def pyFloat (s : String) : Option ℚ :=
  let cs := s.toList
  let signed : Int × List Char :=
    match cs with
    | '-' :: r => (-1, r)
    | '+' :: r => (1, r)
    | r => (1, r)
  match signed.2.span (fun c => !(c == 'e' || c == 'E')) with
  | (mant, expPart) =>
    match parseMantissa mant with
    | none => none
    | some m =>
      match expPart with
      | [] => some (mkRat (signed.1 * (m.1 : Int)) (10 ^ m.2))
      | _ :: ex =>
        match parseExponent ex with
        | none => none
        | some (Int.ofNat n) =>
            some (mkRat (signed.1 * (m.1 : Int) * 10 ^ n) (10 ^ m.2))
        | some (Int.negSucc n) =>
            some (mkRat (signed.1 * (m.1 : Int)) (10 ^ m.2 * 10 ^ (n + 1)))

/-- Python `str.strip()`: drop leading and trailing whitespace. -/
def stripChars (cs : List Char) : List Char :=
  ((cs.dropWhile Char.isWhitespace).reverse.dropWhile Char.isWhitespace).reverse

/-- Python `str.split(",")`: cut the character list at every comma,
keeping empty pieces. -/
def splitFields : List Char → List (List Char)
  | [] => [[]]
  | c :: rest =>
      if c = ',' then [] :: splitFields rest
      else
        match splitFields rest with
        | f :: fs => (c :: f) :: fs
        | [] => [[c]]

/-- The field list of one raw line: strip the line, split on commas,
strip each field (lines 64-65). -/
def fieldsOf (s : String) : List String :=
  (splitFields (stripChars s.toList)).map (fun f => ⟨stripChars f⟩)

/-- Build a reading from the (already stripped) field list: the
`paired_rdd` map (lines 71-73), made total by returning `none` where
Python would raise (too few fields, or a failing `int`/`float`
coercion).  Fields beyond the ninth are ignored, exactly as Python
tuple indexing ignores them. -/
def parseFields (l : List String) : Option Reading :=
  match l with
  | f0 :: f1 :: f2 :: f3 :: f4 :: f5 :: f6 :: f7 :: f8 :: _ =>
    match pyInt f2, pyFloat f5, pyFloat f6, pyFloat f7, pyFloat f8 with
    | some cy, some v, some c, some pv, some st =>
        some ⟨f0, f1, cy, f3, f4, v, c, pv, st⟩
    | _, _, _, _, _ => none
  | _ => none

/-- The parser stage: the composition of the `parsed_rdd` and
`paired_rdd` maps (lines 64-73) on one raw line. -/
def parseLine (s : String) : Option Reading :=
  parseFields (fieldsOf s)

/-- The aggregation key of a reading (line 72). -/
def aggKey (r : Reading) : AggKey :=
  (r.battery_id, r.group, r.cycle, r.step)

/-- The instantaneous per-reading contribution computed by the
`inst_rdd` map (lines 79-84). -/
def contribution (r : Reading) : Metric :=
  (r.current * DELTA_TIME / CAP_CONVERSION,
   r.current * (r.voltage + r.prev_voltage) * DELTA_TIME / (2 * ENG_CONVERSION),
   r.current * r.voltage / PWR_CONVERSION,
   1)

/-- The combine operation of `reduceByKey` (lines 90-94): field-wise
addition of the four metric components. -/
def combine (i j : Metric) : Metric :=
  (i.1 + j.1, i.2.1 + j.2.1, i.2.2.1 + j.2.2.1, i.2.2.2 + j.2.2.2)

/-- Fold one keyed metric into an association list: combine with the
existing accumulator for the key, or append a fresh bucket. -/
def addToList : List (AggKey × Metric) → AggKey → Metric → List (AggKey × Metric)
  | [], k, m => [(k, m)]
  | (k', m') :: rest, k, m =>
      if k' = k then (k', combine m' m) :: rest
      else (k', m') :: addToList rest k m

/-- The window reduction (`inst_rdd` + `reduceByKey`, lines 79-94):
fold every reading's contribution into its key's bucket. -/
def reduceWindow (l : List Reading) : List (AggKey × Metric) :=
  l.foldl (fun acc r => addToList acc (aggKey r) (contribution r)) []

/-- The `summary_rdd` reorganization (lines 100-108):
`((bid, g, cy, st), (cap, eng, pwr, cnt))` becomes
`(st, g, cy, bid, cap, eng, pwr, cnt)`. -/
def summaryOf (x : AggKey × Metric) : Summary :=
  (x.1.2.2.2, x.1.2.1, x.1.2.2.1, x.1.1, x.2.1, x.2.2.1, x.2.2.2.1, x.2.2.2.2)

/-- The pre-routing output of one window: the summary record list. -/
def summaryWindow (l : List Reading) : List Summary :=
  (reduceWindow l).map summaryOf

/-- The uppercased first character of a step string, `none` when the
string is empty (Python `x[0][0].upper()` would raise there). -/
def firstUpper (s : String) : Option Char :=
  s.toList.head?.map Char.toUpper

/-- The discharge stream: `summary_rdd.filter(x[0][0].upper() == "D")`
(line 111). -/
def dischargeWindow (l : List Reading) : List Summary :=
  (summaryWindow l).filter (fun x => firstUpper x.1 == some 'D')

/-- The charge stream: `summary_rdd.filter(x[0][0].upper() == "C")`
(line 112). -/
def chargeWindow (l : List Reading) : List Summary :=
  (summaryWindow l).filter (fun x => firstUpper x.1 == some 'C')

/-- The capacity-sink projection (lines 201-204 and 208-211):
summary `(st, g, cy, bid, cap, ...)` becomes the entry
`(g, cy, bid, cap)`. -/
def toCapacityEntry (x : Summary) : Entry :=
  (x.2.1, x.2.2.1, x.2.2.2.1, x.2.2.2.2.1)

/-- The energy-sink projection (lines 215-218 and 222-225):
summary `(st, g, cy, bid, cap, eng, ...)` becomes `(g, cy, bid, eng)`. -/
def toEnergyEntry (x : Summary) : Entry :=
  (x.2.1, x.2.2.1, x.2.2.2.1, x.2.2.2.2.2.1)

/-- The `discharge_capacity` sink's entries for one window
(lines 201-205). -/
def dischargeCapacityEntries (l : List Reading) : List Entry :=
  (dischargeWindow l).map toCapacityEntry

/-- The `charge_capacity` sink's entries for one window (lines 208-212). -/
def chargeCapacityEntries (l : List Reading) : List Entry :=
  (chargeWindow l).map toCapacityEntry

/-- One additive write operation: the row key bound by the CQL `WHERE`
clause together with the delta added by `SET metric = ? + metric`
(lines 129-144). -/
abbrev WriteOp := RowKey × ℚ

/-- The write operation built from one entry by `cql_batch.add`
(lines 140-144): key `(e[0], e[1], e[2])`, delta `e[3]`. -/
def toOp (e : Entry) : WriteOp :=
  ((e.1, e.2.1, e.2.2.1), e.2.2.2)

/-- Applying one additive write to a store: the CQL
`UPDATE ... SET metric = ? + metric WHERE ...` adds the delta to the
stored value at the row key (lines 129-135). -/
def applyOp (store : RowKey → ℚ) (op : WriteOp) : RowKey → ℚ :=
  fun k => if k = op.1 then store k + op.2 else store k

/-- Applying a list of additive writes in order. -/
def applyOps (store : RowKey → ℚ) (ops : List WriteOp) : RowKey → ℚ :=
  ops.foldl applyOp store

/-- The store with every row absent (a missing numeric column reads as
zero under the additive-merge contract). -/
def emptyStore : RowKey → ℚ := fun _ => 0

/-- The batching loop of `send_partition` (lines 137-154) on the
remaining entries, carrying the current unflushed batch: each entry's
operation is added to the batch; when the batch reaches `crit` it is
executed and a fresh batch started; after the loop the final batch is
executed unconditionally (line 154), even when it is empty.  Returns
the executed batches in order. -/
def sendBatches (crit : ℕ) : List Entry → List WriteOp → List (List WriteOp)
  | [], cur => [cur]
  | e :: es, cur =>
      let cur' := cur ++ [toOp e]
      if cur'.length = crit then cur' :: sendBatches crit es []
      else sendBatches crit es cur'

/-- `send_partition(entries, table, crit_size)` (lines 116-155): the
list of batches passed to `db_session.execute`, in execution order. -/
def sendPartition (entries : List Entry) (crit : ℕ := 500) : List (List WriteOp) :=
  sendBatches crit entries []

/-- Lookup of a key's accumulator in the reduction's association list. -/
def lookupKey (k : AggKey) : List (AggKey × Metric) → Option Metric
  | [] => none
  | (k', m) :: rest => if k' = k then some m else lookupKey k rest

/-- Fold a freshly arrived contribution into an optional existing
accumulator (the effect one reading has on its key's bucket). -/
def foldContribution (o : Option Metric) (m : Metric) : Metric :=
  match o with
  | none => m
  | some m' => combine m' m

/-- Recover the aggregation key from a summary record (inverse of the
`summary_rdd` reorganization on the key fields). -/
def keyOfSummary (x : Summary) : AggKey :=
  (x.2.2.2.1, x.2.1, x.2.2.1, x.1)

/-- First example reading of the end-to-end example:
`(bat1, g1, 1, D1, t, 4.0, 2.0, 3.9, 0)`. -/
def exReading1 : Reading :=
  ⟨"bat1", "g1", 1, "D1", "t", 4, 2, mkRat 39 10, 0⟩

/-- Second example reading of the end-to-end example:
`(bat1, g1, 1, D1, t, 4.1, 2.0, 4.0, 0)`. -/
def exReading2 : Reading :=
  ⟨"bat1", "g1", 1, "D1", "t", mkRat 41 10, 2, 4, 0⟩

/-- A reading whose step is `"d1"` (lower-case discharge). -/
def stepD1Reading : Reading :=
  ⟨"b1", "g1", 1, "d1", "t", 4, 2, 4, 0⟩

/-- A reading whose step is `"C"` (charge). -/
def stepCReading : Reading :=
  ⟨"b1", "g1", 1, "C", "t", 4, 2, 4, 0⟩

/-- A reading whose step is `"x"` (unclassified). -/
def stepXReading : Reading :=
  ⟨"b1", "g1", 1, "x", "t", 4, 2, 4, 0⟩

/-- A reading with negative current (physically a reversed-current
sample; the parser accepts it). -/
def negCurrentReading : Reading :=
  ⟨"bat1", "g1", 1, "D1", "t", 4, -1, 4, 0⟩

/-- The combine operation of lines 90-94 is componentwise addition on
the product monoid. -/
theorem combine_eq_add (i j : Metric) : combine i j = i + j := rfl

/-- Looking up the key just folded into the association list returns
the previous accumulator combined with the new contribution. -/
theorem lookupKey_addToList_self (xs : List (AggKey × Metric)) (k : AggKey) (m : Metric) :
    lookupKey k (addToList xs k m) = some (foldContribution (lookupKey k xs) m) := by
  induction xs with
  | nil => simp [addToList, lookupKey, foldContribution]
  | cons p rest ih =>
      obtain ⟨q, n⟩ := p
      by_cases hq : q = k
      · subst hq
        simp [addToList, lookupKey, foldContribution]
      · simp [addToList, lookupKey, hq, ih]

/-- Folding a metric for one key leaves every other key's lookup
unchanged. -/
theorem lookupKey_addToList_other (xs : List (AggKey × Metric)) (k q : AggKey)
    (m : Metric) (h : q ≠ k) :
    lookupKey q (addToList xs k m) = lookupKey q xs := by
  induction xs with
  | nil => simp [addToList, lookupKey, Ne.symm h]
  | cons p rest ih =>
      obtain ⟨k', n⟩ := p
      by_cases hk : k' = k
      · subst hk
        simp [addToList, lookupKey, Ne.symm h]
      · simp [addToList, lookupKey, hk, ih]

/-- Reducing a window extended by one reading folds that reading's
contribution into the accumulated association list. -/
theorem reduceWindow_append_singleton (l : List Reading) (r : Reading) :
    reduceWindow (l ++ [r]) = addToList (reduceWindow l) (aggKey r) (contribution r) := by
  simp [reduceWindow, List.foldl_append]

/-- C1: the per-reading contribution folded into a key's accumulator is
exactly `(current * 1.0 / 3.6e6, current * (voltage + previous_voltage)
* 1.0 / (2 * 3.6e6), current * voltage / 1.0e3, 1)`; and for the two
example readings in one window the resulting summary record has
`capacity_sum = 2 * (2.0 / 3.6e6)` and `sample_count = 2` and is routed
to the discharge-capacity sink with key `(g1, 1, bat1)`. -/
theorem C1_contribution_formula_and_example :
    (∀ r : Reading, contribution r =
      (r.current * 1 / 3600000,
       r.current * (r.voltage + r.prev_voltage) * 1 / (2 * 3600000),
       r.current * r.voltage / 1000,
       1)) ∧
    summaryWindow [exReading1, exReading2] =
      [("D1", "g1", 1, "bat1", 2 * ((2 : ℚ)/3600000), 1/225000, 81/5000, 2)] ∧
    dischargeWindow [exReading1, exReading2] = summaryWindow [exReading1, exReading2] ∧
    dischargeCapacityEntries [exReading1, exReading2] =
      [("g1", 1, "bat1", 2 * ((2 : ℚ)/3600000))] := by
  have hs : summaryWindow [exReading1, exReading2] =
      [("D1", "g1", 1, "bat1", 2 * ((2 : ℚ)/3600000), 1/225000, 81/5000, 2)] := by
    norm_num [summaryWindow, reduceWindow, addToList, summaryOf, aggKey, contribution,
      exReading1, exReading2, combine, Rat.mkRat_eq_div,
      DELTA_TIME, CAP_CONVERSION, ENG_CONVERSION, PWR_CONVERSION]
  have hd : dischargeWindow [exReading1, exReading2] =
      summaryWindow [exReading1, exReading2] := by
    simp only [dischargeWindow, hs, List.filter_cons, List.filter_nil,
      show (firstUpper "D1" == some 'D') = true from by decide]
    simp
  refine ⟨fun r => ?_, hs, hd, ?_⟩
  · simp [contribution, DELTA_TIME, CAP_CONVERSION, ENG_CONVERSION, PWR_CONVERSION]
  · simp only [dischargeCapacityEntries, hd, hs, List.map_cons, List.map_nil,
      toCapacityEntry]

/-- C4: a finalized summary record is emitted to the discharge stream
iff the uppercased first character of its step is `D`, to the charge
stream iff it is `C`, and to neither stream otherwise; the two streams
are disjoint.  Concretely, step `"d1"` routes to discharge, `"C"` to
charge, and `"x"` to neither. -/
theorem C4_step_routing (l : List Reading) (x : Summary) (h : x.1 ≠ "") :
    (x ∈ dischargeWindow l ↔ x ∈ summaryWindow l ∧ firstUpper x.1 = some 'D') ∧
    (x ∈ chargeWindow l ↔ x ∈ summaryWindow l ∧ firstUpper x.1 = some 'C') ∧
    ¬(x ∈ dischargeWindow l ∧ x ∈ chargeWindow l) ∧
    dischargeWindow [stepD1Reading, stepCReading, stepXReading] =
      [("d1", "g1", 1, "b1", 1/1800000, 1/450000, 1/125, 1)] ∧
    chargeWindow [stepD1Reading, stepCReading, stepXReading] =
      [("C", "g1", 1, "b1", 1/1800000, 1/450000, 1/125, 1)] ∧
    ("x", "g1", 1, "b1", (1 : ℚ)/1800000, (1 : ℚ)/450000, (1 : ℚ)/125, 1) ∉
      dischargeWindow [stepD1Reading, stepCReading, stepXReading] ∧
    ("x", "g1", 1, "b1", (1 : ℚ)/1800000, (1 : ℚ)/450000, (1 : ℚ)/125, 1) ∉
      chargeWindow [stepD1Reading, stepCReading, stepXReading] := by
  have hmemD : x ∈ dischargeWindow l ↔ x ∈ summaryWindow l ∧ firstUpper x.1 = some 'D' := by
    simp [dischargeWindow, List.mem_filter]
  have hmemC : x ∈ chargeWindow l ↔ x ∈ summaryWindow l ∧ firstUpper x.1 = some 'C' := by
    simp [chargeWindow, List.mem_filter]
  have hsum : summaryWindow [stepD1Reading, stepCReading, stepXReading] =
      [("d1", "g1", 1, "b1", 1/1800000, 1/450000, 1/125, 1),
       ("C", "g1", 1, "b1", 1/1800000, 1/450000, 1/125, 1),
       ("x", "g1", 1, "b1", 1/1800000, 1/450000, 1/125, 1)] := by
    norm_num [summaryWindow, reduceWindow, addToList, summaryOf, aggKey, contribution,
      stepD1Reading, stepCReading, stepXReading, combine,
      DELTA_TIME, CAP_CONVERSION, ENG_CONVERSION, PWR_CONVERSION,
      show ("d1" : String) ≠ "C" from by decide,
      show ("d1" : String) ≠ "x" from by decide,
      show ("C" : String) ≠ "x" from by decide,
      show ("C" : String) ≠ "d1" from by decide,
      show ("x" : String) ≠ "d1" from by decide,
      show ("x" : String) ≠ "C" from by decide]
  have hD : dischargeWindow [stepD1Reading, stepCReading, stepXReading] =
      [("d1", "g1", 1, "b1", 1/1800000, 1/450000, 1/125, 1)] := by
    simp only [dischargeWindow, hsum, List.filter_cons, List.filter_nil,
      show (firstUpper "d1" == some 'D') = true from by decide,
      show (firstUpper "C" == some 'D') = false from by decide,
      show (firstUpper "x" == some 'D') = false from by decide]
    simp
  have hC : chargeWindow [stepD1Reading, stepCReading, stepXReading] =
      [("C", "g1", 1, "b1", 1/1800000, 1/450000, 1/125, 1)] := by
    simp only [chargeWindow, hsum, List.filter_cons, List.filter_nil,
      show (firstUpper "d1" == some 'C') = false from by decide,
      show (firstUpper "C" == some 'C') = true from by decide,
      show (firstUpper "x" == some 'C') = false from by decide]
    simp
  refine ⟨hmemD, hmemC, ?_, hD, hC, ?_, ?_⟩
  · rintro ⟨hd, hc⟩
    have h1 := (hmemD.mp hd).2
    have h2 := (hmemC.mp hc).2
    rw [h1] at h2
    exact absurd (Option.some.inj h2) (by decide)
  · rw [hD]
    simp
  · rw [hC]
    simp

/-- Witness for C4 at the mixed three-step window and the charge
record. -/
theorem C4_step_routing_witness :
    ("C" : String) ≠ "" ∧
    (("C", "g1", 1, "b1", (1 : ℚ)/1800000, (1 : ℚ)/450000, (1 : ℚ)/125, 1) ∈
        chargeWindow [stepD1Reading, stepCReading, stepXReading] ↔
      ("C", "g1", 1, "b1", (1 : ℚ)/1800000, (1 : ℚ)/450000, (1 : ℚ)/125, 1) ∈
        summaryWindow [stepD1Reading, stepCReading, stepXReading] ∧
      firstUpper "C" = some 'C') := by
  refine ⟨by decide, ?_⟩
  exact (C4_step_routing [stepD1Reading, stepCReading, stepXReading]
    ("C", "g1", 1, "b1", (1 : ℚ)/1800000, (1 : ℚ)/450000, (1 : ℚ)/125, 1)
    (by decide)).2.1

/-- C5: every persisted write is an additive merge — it adds the
metric value to the stored value at the row keyed by
`(group, cycle, battery_id)` — so issuing the same entry's write twice
against an initially empty row leaves the row holding double the
single-write value. -/
theorem C5_additive_merge (e : Entry) (store : RowKey → ℚ) :
    applyOp store (toOp e) (e.1, e.2.1, e.2.2.1) =
      store (e.1, e.2.1, e.2.2.1) + e.2.2.2 ∧
    applyOps emptyStore [toOp e, toOp e] (e.1, e.2.1, e.2.2.1) = 2 * e.2.2.2 := by
  constructor
  · simp [applyOp, toOp]
  · simp [applyOps, applyOp, toOp, emptyStore]
    ring

/-- C9: two summary records that agree on `(battery_id, group, cycle)`
but differ in step (with the same step-type discriminator letter) are
written to the same destination row `(group, cycle, battery_id)` — the
step field is dropped before the write — so their metric values
accumulate into a single stored total. -/
theorem C9_step_dropped_same_row (s1 s2 g : String) (cy : Int) (bid : String)
    (v1 v2 e1 e2 p1 p2 : ℚ) (c1 c2 : ℕ)
    (hne : s1 ≠ s2) (hsame : firstUpper s1 = firstUpper s2) :
    (toOp (toCapacityEntry (s1, g, cy, bid, v1, e1, p1, c1))).1 =
      (toOp (toCapacityEntry (s2, g, cy, bid, v2, e2, p2, c2))).1 ∧
    (toOp (toCapacityEntry (s1, g, cy, bid, v1, e1, p1, c1))).1 = (g, cy, bid) ∧
    applyOps emptyStore
      [toOp (toCapacityEntry (s1, g, cy, bid, v1, e1, p1, c1)),
       toOp (toCapacityEntry (s2, g, cy, bid, v2, e2, p2, c2))] (g, cy, bid) =
      v1 + v2 := by
  refine ⟨rfl, rfl, ?_⟩
  simp [applyOps, applyOp, toOp, toCapacityEntry, emptyStore]

/-- Witness for C9 at steps `"D1"` and `"D2"`. -/
theorem C9_step_dropped_same_row_witness :
    ("D1" : String) ≠ "D2" ∧ firstUpper "D1" = firstUpper "D2" ∧
    applyOps emptyStore
      [toOp (toCapacityEntry ("D1", "g1", 1, "bat1", 5, 0, 0, 1)),
       toOp (toCapacityEntry ("D2", "g1", 1, "bat1", 7, 0, 0, 1))] ("g1", 1, "bat1") =
      5 + 7 := by
  refine ⟨by decide, by decide, ?_⟩
  exact (C9_step_dropped_same_row "D1" "D2" "g1" 1 "bat1" 5 7 0 0 0 0 1 1
    (by decide) (by decide)).2.2

/-- C10: a raw record whose cycle field is the negative literal `-3`
(all other fields well-formed) parses successfully, and its aggregation
key carries the negative cycle — the parser performs no range
validation on cycle. -/
theorem C10_negative_cycle_parses :
    parseLine "bat1,g1,-3,D1,t,4.0,2.0,3.9,0" =
      some ⟨"bat1", "g1", -3, "D1", "t", 4, 2, mkRat 39 10, 0⟩ ∧
    (parseLine "bat1,g1,-3,D1,t,4.0,2.0,3.9,0").map aggKey =
      some ("bat1", "g1", -3, "D1") := by
  constructor <;> decide

/-- C6 counterexample: a record with an empty battery_id (and one with
ten fields) parses successfully, though the claim requires parsing to
fail for an empty battery_id (or a field-count mismatch). -/
theorem C6_counterexample :
    ((fieldsOf ",g1,1,D1,t,4.0,2.0,3.9,0")[0]? = some "" ∧
      parseLine ",g1,1,D1,t,4.0,2.0,3.9,0" ≠ none) ∧
    ((fieldsOf "a,b,1,D,t,1.0,1.0,1.0,0,extra").length = 10 ∧
      parseLine "a,b,1,D,t,1.0,1.0,1.0,0,extra" ≠ none) := by
  exact ⟨⟨by decide, by decide⟩, ⟨by decide, by decide⟩⟩

/-- Building a reading from a stripped field list fails exactly when
there are fewer than nine fields or a numeric position does not parse. -/
theorem parseFields_none_iff (l : List String) :
    parseFields l = none ↔
      l.length < 9 ∨
      pyInt (l.getD 2 "") = none ∨
      pyFloat (l.getD 5 "") = none ∨
      pyFloat (l.getD 6 "") = none ∨
      pyFloat (l.getD 7 "") = none ∨
      pyFloat (l.getD 8 "") = none := by
  rcases l with _ | ⟨f0, l⟩
  · simp [parseFields]
  rcases l with _ | ⟨f1, l⟩
  · simp [parseFields]
  rcases l with _ | ⟨f2, l⟩
  · simp [parseFields]
  rcases l with _ | ⟨f3, l⟩
  · simp [parseFields]
  rcases l with _ | ⟨f4, l⟩
  · simp [parseFields]
  rcases l with _ | ⟨f5, l⟩
  · simp [parseFields]
  rcases l with _ | ⟨f6, l⟩
  · simp [parseFields]
  rcases l with _ | ⟨f7, l⟩
  · simp [parseFields]
  rcases l with _ | ⟨f8, rest⟩
  · simp [parseFields]
  rcases h2 : pyInt f2 with _ | cy <;>
    rcases h5 : pyFloat f5 with _ | v <;>
      rcases h6 : pyFloat f6 with _ | c <;>
        rcases h7 : pyFloat f7 with _ | pv <;>
          rcases h8 : pyFloat f8 with _ | st <;>
            simp [parseFields, h2, h5, h6, h7, h8]

/-- C6 amended: parsing a raw delimited record fails iff it has fewer
than nine fields after splitting, or a numeric position (cycle as
integer; voltage, current, previous_voltage, step_elapsed_time as
floats) holds a non-numeric value.  No emptiness check is made on the
string fields, and fields beyond the ninth are ignored. -/
theorem C6_parse_failure_characterization (s : String) :
    parseLine s = none ↔
      (fieldsOf s).length < 9 ∨
      pyInt ((fieldsOf s).getD 2 "") = none ∨
      pyFloat ((fieldsOf s).getD 5 "") = none ∨
      pyFloat ((fieldsOf s).getD 6 "") = none ∨
      pyFloat ((fieldsOf s).getD 7 "") = none ∨
      pyFloat ((fieldsOf s).getD 8 "") = none := by
  simpa [parseLine] using parseFields_none_iff (fieldsOf s)

/-- The key list after folding one contribution: unchanged when the key
already has a bucket, extended by the key otherwise. -/
theorem keys_addToList (xs : List (AggKey × Metric)) (k : AggKey) (m : Metric) :
    (addToList xs k m).map Prod.fst =
      if k ∈ xs.map Prod.fst then xs.map Prod.fst else xs.map Prod.fst ++ [k] := by
  induction xs with
  | nil => simp [addToList]
  | cons p rest ih =>
      obtain ⟨q, n⟩ := p
      by_cases hq : q = k
      · subst hq
        simp [addToList]
      · simp only [addToList, if_neg hq, List.map_cons, ih]
        by_cases hm : k ∈ rest.map Prod.fst <;>
          simp [hm, hq, Ne.symm hq, List.mem_cons]

/-- The reduction's key list has no duplicates and holds exactly the
keys of the window's readings. -/
theorem keys_reduceWindow (l : List Reading) :
    ((reduceWindow l).map Prod.fst).Nodup ∧
    ∀ k, k ∈ (reduceWindow l).map Prod.fst ↔ k ∈ l.map aggKey := by
  induction l using List.reverseRecOn with
  | nil => simp [reduceWindow]
  | append_singleton l r ih =>
      obtain ⟨hnd, hmem⟩ := ih
      rw [reduceWindow_append_singleton]
      by_cases hm : aggKey r ∈ (reduceWindow l).map Prod.fst
      · refine ⟨by rw [keys_addToList, if_pos hm]; exact hnd, fun k => ?_⟩
        rw [keys_addToList, if_pos hm, List.map_append, hmem k]
        simp only [List.map_cons, List.map_nil, List.mem_append, List.mem_singleton]
        constructor
        · exact Or.inl
        · rintro (h | rfl)
          · exact h
          · exact (hmem _).mp hm
      · constructor
        · rw [keys_addToList, if_neg hm]
          simp [List.nodup_append, hnd, hm]
        · intro k
          rw [keys_addToList, if_neg hm, List.map_append, List.mem_append,
            List.mem_append, hmem k]
          simp

/-- On a duplicate-free list the number of elements equal to `k` is one
when `k` occurs and zero otherwise. -/
theorem countP_eq_key_of_nodup (l : List AggKey) (hnd : l.Nodup) (k : AggKey) :
    (l.countP fun x => decide (x = k)) = if k ∈ l then 1 else 0 := by
  induction l with
  | nil => simp
  | cons a t ih =>
      rw [List.nodup_cons] at hnd
      obtain ⟨ha, ht⟩ := hnd
      by_cases hk : a = k
      · subst hk
        simp [List.countP_cons, ih ht, ha]
      · simp [List.countP_cons, hk, ih ht, List.mem_cons, Ne.symm hk]

/-- C8: in any window, each aggregation key occurring among the
readings yields exactly one summary record in the pre-routing output,
and keys not occurring yield none. -/
theorem C8_one_record_per_key (l : List Reading) (k : AggKey) :
    ((summaryWindow l).countP fun x => decide (keyOfSummary x = k)) =
      if k ∈ l.map aggKey then 1 else 0 := by
  have hkey : (summaryWindow l).map keyOfSummary = (reduceWindow l).map Prod.fst := by
    rw [summaryWindow, List.map_map]
    rfl
  have hcnt : ((summaryWindow l).countP fun x => decide (keyOfSummary x = k)) =
      (((summaryWindow l).map keyOfSummary).countP fun x => decide (x = k)) := by
    rw [List.countP_map]
    rfl
  obtain ⟨hnd, hmem⟩ := keys_reduceWindow l
  rw [hcnt, hkey, countP_eq_key_of_nodup _ hnd]
  by_cases hm : k ∈ l.map aggKey
  · rw [if_pos hm, if_pos ((hmem k).mpr hm)]
  · rw [if_neg hm, if_neg (fun hh => hm ((hmem k).mp hh))]

/-- C7 counterexample: folding a reading with negative current strictly
decreases the accumulator's capacity field, so the four accumulator
fields are not monotonically non-decreasing at every fold step. -/
theorem C7_counterexample :
    (combine (contribution exReading1) (contribution negCurrentReading)).1 <
      (contribution exReading1).1 := by
  norm_num [combine, contribution, exReading1, negCurrentReading,
    DELTA_TIME, CAP_CONVERSION]

/-- C7 amended: sample_count increases by exactly 1 at every fold step;
the capacity, energy and power sums are non-decreasing at a fold step
whenever the folded reading's current, voltage and previous voltage are
non-negative. -/
theorem C7_monotone (acc : Metric) (r : Reading)
    (hc : 0 ≤ r.current) (hv : 0 ≤ r.voltage) (hpv : 0 ≤ r.prev_voltage) :
    (combine acc (contribution r)).2.2.2 = acc.2.2.2 + 1 ∧
    acc.1 ≤ (combine acc (contribution r)).1 ∧
    acc.2.1 ≤ (combine acc (contribution r)).2.1 ∧
    acc.2.2.1 ≤ (combine acc (contribution r)).2.2.1 := by
  refine ⟨rfl, ?_, ?_, ?_⟩ <;>
    · apply le_add_of_nonneg_right
      simp only [contribution, DELTA_TIME, CAP_CONVERSION, ENG_CONVERSION, PWR_CONVERSION]
      positivity

/-- Witness for C7 amended at a concrete accumulator and reading. -/
theorem C7_monotone_witness :
    (0 : ℚ) ≤ exReading1.current ∧ (0 : ℚ) ≤ exReading1.voltage ∧
    (0 : ℚ) ≤ exReading1.prev_voltage ∧
    (combine (1, 1, 1, 3) (contribution exReading1)).2.2.2 = 3 + 1 ∧
    (1 : ℚ) ≤ (combine (1, 1, 1, 3) (contribution exReading1)).1 := by
  refine ⟨by decide, by decide, by decide, ?_, ?_⟩
  · exact (C7_monotone (1, 1, 1, 3) exReading1 (by decide) (by decide) (by decide)).1
  · exact (C7_monotone (1, 1, 1, 3) exReading1 (by decide) (by decide) (by decide)).2.1

/-- A key's accumulator after reduction is the sum of the contributions
of the window's readings carrying that key (absent iff no reading
carries the key). -/
theorem lookupKey_reduceWindow (l : List Reading) (k : AggKey) :
    lookupKey k (reduceWindow l) =
      if (l.filter fun r => decide (aggKey r = k)) = [] then none
      else some ((l.filter fun r => decide (aggKey r = k)).map contribution).sum := by
  induction l using List.reverseRecOn with
  | nil => simp [reduceWindow, lookupKey]
  | append_singleton l r ih =>
      rw [reduceWindow_append_singleton]
      by_cases h : aggKey r = k
      · rw [h, lookupKey_addToList_self, ih]
        by_cases hemp : (l.filter fun r => decide (aggKey r = k)) = []
        · simp [hemp, foldContribution, List.filter_append, h]
        · simp [hemp, foldContribution, List.filter_append, h, combine_eq_add]
      · rw [lookupKey_addToList_other _ _ _ _ (fun hk => h hk.symm), ih]
        simp [List.filter_append, h]

/-- C2: reducing any permutation of a window's readings yields the same
finalized accumulator for every aggregation key; the combine operation
is commutative and associative. -/
theorem C2_reduction_order_independent (l₁ l₂ : List Reading) (h : l₁.Perm l₂) :
    (∀ k : AggKey, lookupKey k (reduceWindow l₁) = lookupKey k (reduceWindow l₂)) ∧
    (∀ i j : Metric, combine i j = combine j i) ∧
    (∀ i j m : Metric, combine (combine i j) m = combine i (combine j m)) := by
  refine ⟨fun k => ?_, fun i j => ?_, fun i j m => ?_⟩
  · rw [lookupKey_reduceWindow, lookupKey_reduceWindow]
    have hf : (l₁.filter fun r => decide (aggKey r = k)).Perm
        (l₂.filter fun r => decide (aggKey r = k)) := h.filter _
    have hn : ((l₁.filter fun r => decide (aggKey r = k)) = []) ↔
        ((l₂.filter fun r => decide (aggKey r = k)) = []) := by
      rw [← List.length_eq_zero, ← List.length_eq_zero, hf.length_eq]
    have hs : ((l₁.filter fun r => decide (aggKey r = k)).map contribution).sum =
        ((l₂.filter fun r => decide (aggKey r = k)).map contribution).sum :=
      (hf.map contribution).sum_eq
    by_cases hemp : (l₁.filter fun r => decide (aggKey r = k)) = []
    · rw [if_pos hemp, if_pos (hn.mp hemp)]
    · rw [if_neg hemp, if_neg (fun hh => hemp (hn.mpr hh)), hs]
  · simp only [combine_eq_add, add_comm]
  · simp only [combine_eq_add, add_assoc]

/-- Witness for C2: the example window reversed reduces to the same
accumulator at the example key. -/
theorem C2_reduction_order_independent_witness :
    List.Perm [exReading1, exReading2] [exReading2, exReading1] ∧
    lookupKey ("bat1", "g1", 1, "D1") (reduceWindow [exReading1, exReading2]) =
      lookupKey ("bat1", "g1", 1, "D1") (reduceWindow [exReading2, exReading1]) := by
  have hperm : List.Perm [exReading1, exReading2] [exReading2, exReading1] :=
    List.Perm.swap exReading2 exReading1 []
  exact ⟨hperm,
    (C2_reduction_order_independent [exReading1, exReading2] [exReading2, exReading1]
      hperm).1 ("bat1", "g1", 1, "D1")⟩

/-- The batching loop always executes at least one batch: the final
`db_session.execute` (line 154) is unconditional. -/
theorem sendBatches_ne_nil (B : ℕ) (es : List Entry) (cur : List WriteOp) :
    sendBatches B es cur ≠ [] := by
  induction es generalizing cur with
  | nil => simp [sendBatches]
  | cons e es ih =>
      simp only [sendBatches]
      split
      · simp
      · exact ih _

/-- Prepending to a nonempty list does not change its last element. -/
theorem getLast?_cons_of_ne_nil {α : Type} (a : α) {l : List α} (h : l ≠ []) :
    (a :: l).getLast? = l.getLast? := by
  cases l with
  | nil => exact absurd rfl h
  | cons b t => exact List.getLast?_cons_cons

/-- How many batches the loop executes, given the remaining entries and
the current partially filled batch. -/
theorem sendBatches_length (B : ℕ) (hB : 0 < B) (es : List Entry) (cur : List WriteOp)
    (hcur : cur.length < B) :
    (sendBatches B es cur).length = (cur.length + es.length) / B + 1 := by
  induction es generalizing cur with
  | nil => simp [sendBatches, Nat.div_eq_of_lt hcur]
  | cons e es ih =>
      simp only [sendBatches]
      by_cases hfull : (cur ++ [toOp e]).length = B
      · rw [if_pos hfull, List.length_cons, ih [] (by simpa using hB)]
        have harg : cur.length + (e :: es).length = es.length + B := by
          simp only [List.length_append, List.length_cons, List.length_nil] at hfull ⊢
          omega
        rw [harg, Nat.add_div_right _ hB]
        simp
      · rw [if_neg hfull]
        have hlt : (cur ++ [toOp e]).length < B := by
          simp only [List.length_append, List.length_cons, List.length_nil] at hfull ⊢
          omega
        rw [ih _ hlt]
        have harg : (cur ++ [toOp e]).length + es.length = cur.length + (e :: es).length := by
          simp; omega
        rw [harg]

/-- The size of the final executed batch, given the remaining entries
and the current partially filled batch. -/
theorem sendBatches_last (B : ℕ) (hB : 0 < B) (es : List Entry) (cur : List WriteOp)
    (hcur : cur.length < B) :
    ((sendBatches B es cur).getLast?).map List.length =
      some ((cur.length + es.length) % B) := by
  induction es generalizing cur with
  | nil => simp [sendBatches, Nat.mod_eq_of_lt hcur]
  | cons e es ih =>
      simp only [sendBatches]
      by_cases hfull : (cur ++ [toOp e]).length = B
      · rw [if_pos hfull, getLast?_cons_of_ne_nil _ (sendBatches_ne_nil B es []),
          ih [] (by simpa using hB)]
        have harg : cur.length + (e :: es).length = es.length + B := by
          simp only [List.length_append, List.length_cons, List.length_nil] at hfull ⊢
          omega
        rw [harg, Nat.add_mod_right]
        simp
      · rw [if_neg hfull]
        have hlt : (cur ++ [toOp e]).length < B := by
          simp only [List.length_append, List.length_cons, List.length_nil] at hfull ⊢
          omega
        rw [ih _ hlt]
        have harg : (cur ++ [toOp e]).length + es.length = cur.length + (e :: es).length := by
          simp; omega
        rw [harg]

/-- C3 amended: with batch threshold `B ≥ 1`, consuming `N` entries
issues exactly `N / B + 1` batch-execute calls (one more than
`ceil(N/B)` when `N` is a multiple of `B`, including `N = 0`), and the
final call's batch contains `N mod B` operations — empty when `N` is a
multiple of `B`. -/
theorem C3_batching (entries : List Entry) (B : ℕ) (hB : 0 < B) :
    (sendPartition entries B).length = entries.length / B + 1 ∧
    ((sendPartition entries B).getLast?).map List.length =
      some (entries.length % B) := by
  constructor
  · have := sendBatches_length B hB entries [] (by simpa using hB)
    simpa [sendPartition] using this
  · have := sendBatches_last B hB entries [] (by simpa using hB)
    simpa [sendPartition] using this

/-- Witness for C3 amended: three entries with threshold 2 produce two
batch-execute calls, the final batch holding one operation. -/
theorem C3_batching_witness :
    0 < 2 ∧
    (sendPartition [("g", 1, "b", (5 : ℚ)), ("g", 1, "b", 7), ("g", 1, "b", 9)] 2).length =
      3 / 2 + 1 ∧
    ((sendPartition [("g", 1, "b", (5 : ℚ)), ("g", 1, "b", 7), ("g", 1, "b", 9)] 2).getLast?).map
        List.length = some (3 % 2) := by
  refine ⟨by decide, ?_⟩
  exact C3_batching [("g", 1, "b", (5 : ℚ)), ("g", 1, "b", 7), ("g", 1, "b", 9)] 2 (by decide)

/-- C3 counterexample: two entries with batch threshold 2 produce two
batch-execute calls (the claim predicts one), the second on an empty
batch (the claim predicts a final batch of two operations): the final
`db_session.execute` on line 154 runs unconditionally. -/
theorem C3_counterexample :
    (sendPartition [("g", 1, "b", (5 : ℚ)), ("g", 1, "b", 7)] 2).length = 2 ∧
    (sendPartition [("g", 1, "b", (5 : ℚ)), ("g", 1, "b", 7)] 2).getLast? =
      some [] := by
  constructor <;> decide

end CycleStep
